import Mathlib

/-!
Verification of the claim-extraction / fact-checking / job-pipeline core of the
reels-and-shorts fact-check service.

The TypeScript sources are shallowly embedded:
* external AI calls (Gemini generateContent / file upload) are modelled by
  explicit outcome parameters (the parsed value of the model's response, or the
  success/failure of each attempt);
* JavaScript numbers used as integer counters/scores are modelled as `Nat`/`Int`,
  probed audio durations as `ℚ`, and `Math.round` on a non-negative quotient as
  `round` on `ℚ` (both are floor(x + 1/2));
* fallible code returns `Except`.
-/

namespace FactCheck

/-- One entry of the JSON array returned by the extraction call
(`{text, timestamp?}`), as parsed in `factCheckTranscription`. -/
structure ExtractedClaim where
  text : String
  timestamp : Option String
deriving DecidableEq, Repr

/-- One entry of the JSON array returned by the verification call
(`{claimIndex, status, score, explanation, wrongPart?, correction?, sources?}`).
`status` is kept as a raw string: the source casts it with
`checkResult.status as ClaimStatus` without validating it. -/
structure Verdict where
  claimIndex : Int
  status : String
  score : Int
  explanation : String
  wrongPart : Option String
  correction : Option String
  sources : Option (List String)
deriving DecidableEq, Repr

/-- An assembled claim of the final report (the generated uuid `id` field is
omitted: it is fresh external randomness and no claim mentions it). -/
structure Claim where
  text : String
  timestamp : Option String
  status : String
  score : Int
  explanation : String
  wrongPart : Option String
  correction : Option String
  sources : List String
deriving DecidableEq, Repr

/-- The per-status counts computed in `factCheckTranscription`. -/
structure Summary where
  totalClaims : Nat
  trueClaims : Nat
  falseClaims : Nat
  partiallyTrueClaims : Nat
  unverifiableClaims : Nat
deriving DecidableEq, Repr

/-- The value returned by `factCheckTranscription`. -/
structure FactCheckResult where
  claims : List Claim
  overallScore : Int
  summary : Summary
deriving DecidableEq, Repr

/-- The fallback object used when `factCheckData.find(f => f.claimIndex === index)`
returns no verdict.  The source object has no `claimIndex` field; the field here
is a dummy 0 and is never read by `buildClaim`. -/
def fallbackCheck : Verdict :=
  { claimIndex := 0
    status := "unverifiable"
    score := 50
    explanation := "Unable to verify"
    wrongPart := none
    correction := none
    sources := some [] }

/-- Assembly of one final claim from an extracted claim and its verdict
(the body of the `extractedClaims.map` in `factCheckTranscription`):
sources are forced to `[]` when the verdict status is `"true"`,
otherwise `checkResult.sources || []`. -/
def buildClaim (c : ExtractedClaim) (f : Verdict) : Claim :=
  { text := c.text
    timestamp := c.timestamp
    status := f.status
    score := f.score
    explanation := f.explanation
    wrongPart := f.wrongPart
    correction := f.correction
    sources := if f.status = "true" then [] else f.sources.getD [] }

/-- `extractedClaims.map((claim, index) => ...)` with
`factCheckData.find(f => f.claimIndex === index)`: the verdict for index `i` is
the first element of `fcd` whose `claimIndex` field equals `i`, defaulting to
`fallbackCheck`. -/
def assembleClaims (extracted : List ExtractedClaim) (fcd : List Verdict) : List Claim :=
  extracted.enum.map fun p =>
    buildClaim p.2 ((fcd.find? fun f => f.claimIndex = (p.1 : Int)).getD fallbackCheck)

/-- Matching as the specification words it (positional index): the verdict for
index `i` is `fcd[i]`, defaulting when the verdict array is shorter.  Written
for comparison with `assembleClaims`; not what the source does. -/
def assembleClaimsPositional (extracted : List ExtractedClaim) (fcd : List Verdict) :
    List Claim :=
  extracted.enum.map fun p => buildClaim p.2 ((fcd.get? p.1).getD fallbackCheck)

/-- The substitution used when the verification response fails to parse:
every extracted claim gets an `unverifiable`/50 verdict at its own index. -/
def unverifiableAll (extracted : List ExtractedClaim) : List Verdict :=
  extracted.enum.map fun p =>
    { claimIndex := (p.1 : Int)
      status := "unverifiable"
      score := 50
      explanation := "Unable to verify this claim"
      wrongPart := none
      correction := none
      sources := some [] }

/-- The placeholder substituted when the extraction response fails to parse. -/
def placeholderClaims : List ExtractedClaim :=
  [{ text := "Unable to extract specific claims", timestamp := none }]

/-- The summary block computed from the assembled claims. -/
def mkSummary (claims : List Claim) : Summary :=
  { totalClaims := claims.length
    trueClaims := (claims.filter fun c => c.status = "true").length
    falseClaims := (claims.filter fun c => c.status = "false").length
    partiallyTrueClaims := (claims.filter fun c => c.status = "partially_true").length
    unverifiableClaims := (claims.filter fun c => c.status = "unverifiable").length }

/-- The scoring arithmetic at the end of `factCheckTranscription`:
100 for no claims, otherwise
`Math.round((true*100 + partially*50 + unverifiable*50 + false*0) / total)`. -/
def overallScoreOf (s : Summary) : Int :=
  if s.totalClaims = 0 then 100
  else
    round (((s.trueClaims * 100 + s.partiallyTrueClaims * 50
      + s.unverifiableClaims * 50 + s.falseClaims * 0 : Nat) : ℚ) / (s.totalClaims : ℚ))

/-- `factCheckTranscription`, with the two external model calls replaced by the
parse outcome of their responses: `extractionParse` (resp. `verificationParse`)
is `some xs` when `JSON.parse` of the (fence-stripped) response succeeds with
`xs`, and `none` when it throws.  The only remaining throw is the missing
API-key guard at the top of the function. -/
def factCheckTranscription (apiKey : String)
    (extractionParse : Option (List ExtractedClaim))
    (verificationParse : Option (List Verdict)) : Except String FactCheckResult :=
  if apiKey = "" then .error "Gemini API key not configured"
  else
    let extractedClaims := extractionParse.getD placeholderClaims
    if extractedClaims.length = 0 then
      .ok { claims := [], overallScore := 100
            summary := ⟨0, 0, 0, 0, 0⟩ }
    else
      let factCheckData := verificationParse.getD (unverifiableAll extractedClaims)
      let claims := assembleClaims extractedClaims factCheckData
      let summary := mkSummary claims
      .ok { claims := claims, overallScore := overallScoreOf summary, summary := summary }

/-- Concrete extraction of four claims, for the scoring scenario of the spec. -/
def fourExtracted : List ExtractedClaim :=
  [⟨"a", none⟩, ⟨"b", none⟩, ⟨"c", none⟩, ⟨"d", none⟩]

/-- Verdicts `[true, true, false, partially_true]` for `fourExtracted`. -/
def fourVerdicts : List Verdict :=
  [⟨0, "true", 100, "ok", none, none, some []⟩,
   ⟨1, "true", 95, "ok", none, none, some []⟩,
   ⟨2, "false", 0, "wrong", some "b", some "c", some ["https://example.org"]⟩,
   ⟨3, "partially_true", 50, "partly", some "d", some "e", some ["https://example.org"]⟩]

/-- A single extracted claim. -/
def oneExtracted : List ExtractedClaim := [⟨"a", none⟩]

/-- A `true` verdict for which the verifier nevertheless returned sources. -/
def trueVerdictWithSources : Verdict :=
  ⟨0, "true", 100, "ok", none, none, some ["https://example.org/proof"]⟩

/-- Two extracted claims, for the verdict-matching scenario. -/
def twoExtracted : List ExtractedClaim := [⟨"x", none⟩, ⟨"y", none⟩]

/-- A single verdict declaring `claimIndex` 1: shorter than (and misaligned
with) `twoExtracted`. -/
def oneVerdictAtIndexOne : List Verdict :=
  [⟨1, "false", 0, "no", none, none, some ["https://example.org/source"]⟩]

end FactCheck

namespace Pipeline

/-- The `VideoStatus` union type of the backend. -/
inductive VideoStatus
  | pending
  | downloading
  | transcribing
  | analyzing
  | completed
  | error
deriving DecidableEq, Repr

/-- The in-memory `VideoData` record (the `createdAt`/`analyzedAt` `Date` fields
and `duration` are omitted: wall-clock values, mentioned by no claim). -/
structure VideoData where
  id : String
  url : String
  platform : String
  title : Option String
  language : String
  status : VideoStatus
  progress : Nat
  statusMessage : String
  audioPath : Option String
  transcription : Option String
  claims : Option (List FactCheck.Claim)
  overallScore : Option Int
  error : Option String
deriving DecidableEq, Repr

/-- One entry of `config.supportedLanguages`. -/
structure LanguageOption where
  code : String
  name : String
  nativeName : String
deriving DecidableEq, Repr

/-- `config.supportedLanguages`. -/
def supportedLanguages : List LanguageOption :=
  [⟨"en", "English", "English"⟩,
   ⟨"ar", "Arabic", "العربية"⟩,
   ⟨"fr", "French", "Français"⟩,
   ⟨"es", "Spanish", "Español"⟩,
   ⟨"de", "German", "Deutsch"⟩,
   ⟨"it", "Italian", "Italiano"⟩,
   ⟨"pt", "Portuguese", "Português"⟩,
   ⟨"ru", "Russian", "Русский"⟩,
   ⟨"zh", "Chinese", "中文"⟩,
   ⟨"ja", "Japanese", "日本語"⟩,
   ⟨"ko", "Korean", "한국어"⟩,
   ⟨"hi", "Hindi", "हिन्दी"⟩,
   ⟨"tr", "Turkish", "Türkçe"⟩]

/-- `config.supportedPlatforms`. -/
def supportedPlatforms : List String :=
  ["youtube.com", "youtu.be", "facebook.com", "fb.watch", "instagram.com",
   "twitter.com", "x.com", "tiktok.com"]

/-- JavaScript `String.prototype.replace` with a string pattern replaces only
the first occurrence; both call sites in `helpers.ts` replace a pattern by the
empty string, so only removal is modelled. -/
def removeFirst (pat : List Char) : List Char → List Char
  | [] => []
  | c :: rest =>
    if pat.isPrefixOf (c :: rest) then (c :: rest).drop pat.length
    else c :: removeFirst pat rest

/-- `hostname.replace('www.', '')`. -/
def jsReplaceWWW (s : String) : String := ⟨removeFirst "www.".data s.data⟩

/-- Contiguous-subsequence test on character lists. -/
def containsSeq (pat : List Char) : List Char → Bool
  | [] => pat.isEmpty
  | c :: rest => pat.isPrefixOf (c :: rest) || containsSeq pat rest

/-- JavaScript `String.prototype.includes`: contiguous substring test. -/
def jsIncludes (s t : String) : Bool := containsSeq t.data s.data

/-- `toLowerCase()`, character by character. -/
def jsToLower (s : String) : String := ⟨s.data.map Char.toLower⟩

/-- `isValidPlatformUrl` from `helpers.ts`, at the level of the parsed host:
`host = none` models a `new URL(url)` parse failure (the `catch` branch);
otherwise the host is stripped of a first `www.`, lowercased, and tested for
*substring* containment of each supported platform domain. -/
def isValidPlatformUrl (host : Option String) : Bool :=
  match host with
  | none => false
  | some h =>
    let hostname := jsToLower (jsReplaceWWW h)
    supportedPlatforms.any fun platform => jsIncludes hostname (jsReplaceWWW platform)

/-- `extractPlatform` from `helpers.ts`, at the level of the parsed host. -/
def extractPlatform (host : Option String) : String :=
  match host with
  | none => "Unknown"
  | some h =>
    let hostname := jsToLower (jsReplaceWWW h)
    if jsIncludes hostname "youtube" || jsIncludes hostname "youtu.be" then "YouTube"
    else if jsIncludes hostname "facebook" || jsIncludes hostname "fb.watch" then "Facebook"
    else if jsIncludes hostname "instagram" then "Instagram"
    else if jsIncludes hostname "twitter" || jsIncludes hostname "x.com" then "Twitter/X"
    else if jsIncludes hostname "tiktok" then "TikTok"
    else "Unknown"

/-- The 400-responses of `processVideo`. -/
inductive SubmitReject
  | missingUrl
  | missingLanguage
  | unsupportedPlatform
  | unsupportedLanguage
deriving DecidableEq, Repr

/-- `processVideo`: `url`/`language` are `none` when the request body field is
missing or empty (JS falsiness); `host` is the WHATWG parse of the url string
(`none` when parsing throws); `newId` stands for the generated uuid.  On
success it returns the created job and the updated job table — the table update
(`videoJobs.set`) and the response happen before `processVideoAsync` is
invoked. -/
def processVideo (jobs : String → Option VideoData) (newId : String)
    (url : Option String) (host : Option String) (language : Option String) :
    Except SubmitReject (VideoData × (String → Option VideoData)) :=
  match url with
  | none => .error .missingUrl
  | some u =>
    match language with
    | none => .error .missingLanguage
    | some lang =>
      if isValidPlatformUrl host = false then .error .unsupportedPlatform
      else if (supportedLanguages.find? fun l => l.code = lang).isNone then
        .error .unsupportedLanguage
      else
        let job : VideoData :=
          { id := newId, url := u, platform := extractPlatform host, title := none
            language := lang, status := .pending, progress := 0
            statusMessage := "Initializing...", audioPath := none
            transcription := none, claims := none, overallScore := none, error := none }
        .ok (job, fun i => if i = newId then some job else jobs i)

/-- The snapshot returned by `getVideoStatus`. -/
structure StatusSnapshot where
  id : String
  status : VideoStatus
  progress : Nat
  statusMessage : String
  title : Option String
  platform : String
  transcription : Option String
  error : Option String
deriving DecidableEq, Repr

/-- The 404-response of the job-lookup endpoints. -/
inductive LookupReject
  | notFound
deriving DecidableEq, Repr

/-- `getVideoStatus`: the transcript is exposed only in `completed` or
`analyzing` status. -/
def getVideoStatus (jobs : String → Option VideoData) (id : String) :
    Except LookupReject StatusSnapshot :=
  match jobs id with
  | none => .error .notFound
  | some job =>
    .ok { id := job.id, status := job.status, progress := job.progress
          statusMessage := job.statusMessage, title := job.title
          platform := job.platform
          transcription :=
            if job.status = .completed ∨ job.status = .analyzing then job.transcription
            else none
          error := job.error }

/-- The 404/400-responses of `analyzeVideo`. -/
inductive AnalyzeReject
  | notFound
  | notYetTranscribed
  | alreadyAnalyzing
deriving DecidableEq, Repr

/-- `analyzeVideo` (the synchronous part, before the background task): the
transcript guard is JS falsiness `!job.transcription`, true when the field is
absent or the empty string; the status guard rejects only `analyzing`.  On
acceptance the job moves to `analyzing` at progress 75. -/
def analyzeVideo (jobs : String → Option VideoData) (id : String) :
    Except AnalyzeReject VideoData :=
  match jobs id with
  | none => .error .notFound
  | some job =>
    if job.transcription.getD "" = "" then .error .notYetTranscribed
    else if job.status = .analyzing then .error .alreadyAnalyzing
    else
      .ok { job with
            status := .analyzing, progress := 75,
            statusMessage := "Starting fact-check analysis..." }

/-- `analyzeVideoAsync`: applies the outcome of `factCheckTranscription` to the
job record — success completes the job at progress 100 with claims and score;
a thrown error moves it to `error`. -/
def analyzeVideoAsyncStep (job : VideoData)
    (outcome : Except String FactCheck.FactCheckResult) : VideoData :=
  match outcome with
  | .ok result =>
    { job with
      claims := some result.claims, overallScore := some result.overallScore,
      status := .completed, progress := 100, statusMessage := "Analysis complete!" }
  | .error msg =>
    { job with
      status := .error, error := some msg,
      statusMessage := "Analysis error: " ++ msg }

/-- A job whose analysis task failed after a successful transcription: status
`error` with the transcription still present (as `analyzeVideoAsync` leaves
it). -/
def errorJobWithTranscript : VideoData :=
  { id := "j", url := "https://youtube.com/watch?v=1", platform := "YouTube"
    title := some "t", language := "en", status := .error, progress := 90
    statusMessage := "Analysis error: boom", audioPath := none
    transcription := some "[00:00] hello", claims := none, overallScore := none
    error := some "boom" }

end Pipeline

namespace Chunking

/-- `ChunkInfo`: start offset and duration of one sliced audio segment, in
seconds (ffprobe reports a real number, modelled as `ℚ`); the file path is
omitted. -/
structure ChunkInfo where
  startTime : ℚ
  duration : ℚ
deriving DecidableEq, Repr

/-- `CHUNK_DURATION_SECONDS = 5 * 60`. -/
def CHUNK_DURATION_SECONDS : ℚ := 5 * 60

/-- `CHUNKING_THRESHOLD_SECONDS = 10 * 60`. -/
def CHUNKING_THRESHOLD_SECONDS : ℚ := 10 * 60

/-- The `while (startTime < totalDuration)` loop of `splitAudioIntoChunks`:
each iteration cuts a window of `min(chunkDuration, totalDuration - startTime)`
seconds; the chunk joins the list only when its ffmpeg extraction succeeded and
the output file exists (`extractOk` at the chunk index); `startTime` advances
by the full `chunkDuration` and `chunkIndex` increments on every iteration
regardless.  `fuel` bounds the iterations; the caller passes exactly enough for
the loop to run to completion. -/
def splitLoop (total chunkDuration : ℚ) (extractOk : Nat → Bool) :
    ℚ → Nat → Nat → List ChunkInfo
  | _, _, 0 => []
  | startTime, idx, fuel+1 =>
    if startTime < total then
      (if extractOk idx then [⟨startTime, min chunkDuration (total - startTime)⟩] else [])
        ++ splitLoop total chunkDuration extractOk (startTime + chunkDuration) (idx + 1) fuel
    else []

/-- `splitAudioIntoChunks(audioPath, chunkDuration)`: throws when the probed
duration is not positive; otherwise runs the cutting loop from offset 0.
`⌈total/chunkDuration⌉` is exactly the iteration count of the source's while
loop. -/
def splitAudioIntoChunks (total chunkDuration : ℚ) (extractOk : Nat → Bool) :
    Except String (List ChunkInfo) :=
  if total ≤ 0 then .error "Could not determine audio duration"
  else .ok (splitLoop total chunkDuration extractOk 0 0 (⌈total / chunkDuration⌉.toNat))

/-- The chunking decision of `transcribeAudio` combined with the splitter:
audio whose probed duration exceeds `CHUNKING_THRESHOLD_SECONDS` is split into
`CHUNK_DURATION_SECONDS` windows; otherwise the whole file is handed over as
one unit and no chunks are produced. -/
def chunksProduced (audioDuration : ℚ) (extractOk : Nat → Bool) : List ChunkInfo :=
  if audioDuration > CHUNKING_THRESHOLD_SECONDS then
    (splitAudioIntoChunks audioDuration CHUNK_DURATION_SECONDS extractOk).toOption.getD []
  else []

/-- `padStart(2, '0')` on a decimal rendering. -/
def pad2 (n : Nat) : String :=
  if n < 10 then "0" ++ toString n else toString n

/-- `formatTimestamp`: `MM:SS` from non-negative seconds
(`Math.floor(seconds / 60)` and `Math.floor(seconds % 60)`). -/
def formatTimestamp (seconds : ℚ) : String :=
  pad2 (⌊seconds / 60⌋.toNat) ++ ":" ++ pad2 ((⌊seconds⌋ - 60 * ⌊seconds / 60⌋).toNat)

/-- JavaScript `String.prototype.trim`, character by character. -/
def jsTrim (s : String) : String :=
  ⟨((s.data.dropWhile Char.isWhitespace).reverse.dropWhile Char.isWhitespace).reverse⟩

/-- What the external calls produced for one chunk inside
`transcribeWithChunking`'s loop: a throw from upload-with-retry or from the
generation call (`uploadFailed`), a `FAILED` file state after the processing
poll (`processingFailed`), or the generation response text — possibly empty or
whitespace-only, which the loop also skips. -/
inductive ChunkOutcome
  | uploadFailed
  | processingFailed
  | transcribed (text : String)
deriving DecidableEq, Repr

/-- The per-chunk accumulation loop of `transcribeWithChunking` (`i` is the
loop index): failed or empty chunks contribute nothing and do not abort;
a successful chunk contributes its trimmed transcript prefixed with the
rebased start-time header `\n[MM:SS]\n`. -/
def chunkLoop (outcome : Nat → ChunkOutcome) : Nat → List ChunkInfo → List String
  | _, [] => []
  | i, chunk :: rest =>
    (match outcome i with
     | .transcribed t =>
       if jsTrim t ≠ "" then
         ["\n[" ++ formatTimestamp chunk.startTime ++ "]\n" ++ jsTrim t]
       else []
     | _ => []) ++ chunkLoop outcome (i + 1) rest

/-- The surviving header-prefixed transcripts, indexed presentation: the same
collection as `chunkLoop` starting at 0, written over the enumerated chunk
list. -/
def survivorTexts (chunks : List ChunkInfo) (outcome : Nat → ChunkOutcome) : List String :=
  chunks.enum.filterMap fun p =>
    match outcome p.1 with
    | .transcribed t =>
      if jsTrim t ≠ "" then
        some ("\n[" ++ formatTimestamp p.2.startTime ++ "]\n" ++ jsTrim t)
      else none
    | _ => none

/-- `transcribeWithChunking` given the splitter's chunk list and the external
outcome of each chunk: throws when the splitter produced no chunks; otherwise
processes every chunk, skipping failures; throws when no chunk produced any
output; else merges the surviving transcripts with a blank-line separator. -/
def transcribeWithChunking (chunks : List ChunkInfo) (outcome : Nat → ChunkOutcome) :
    Except String String :=
  if chunks.length = 0 then .error "Failed to split audio into chunks"
  else
    let transcriptions := chunkLoop outcome 0 chunks
    if transcriptions.length = 0 then .error "Failed to transcribe any chunks"
    else .ok (String.intercalate "\n\n" transcriptions)

end Chunking

namespace Retry

/-- The retry loop of `uploadWithRetry`: `outcome attempt` is the result of the
`attempt`-th `fileManager.uploadFile` call; the returned list records, in
milliseconds, each backoff sleep performed between failed attempts
(`Math.pow(2, attempt) * 1000`).  `fuel` counts the remaining loop iterations
(initially `maxRetries`); the `Option` argument is the `lastError` variable,
consulted only if the loop body never runs. -/
def uploadGo {α : Type} (outcome : Nat → Except String α) (maxRetries : Nat) :
    Nat → Nat → Option String → Except String α × List Nat
  | _, 0, lastErr => (.error (lastErr.getD "Upload failed after all retries"), [])
  | attempt, fuel+1, _ =>
    match outcome attempt with
    | .ok a => (.ok a, [])
    | .error e =>
      let r := uploadGo outcome maxRetries (attempt + 1) fuel (some e)
      if attempt < maxRetries then (r.1, 2 ^ attempt * 1000 :: r.2) else (r.1, r.2)

/-- `uploadWithRetry(fileManager, path, options, maxRetries)`. -/
def uploadWithRetry {α : Type} (outcome : Nat → Except String α) (maxRetries : Nat) :
    Except String α × List Nat :=
  uploadGo outcome maxRetries 1 maxRetries none

/-- The generation retry loop shared by `transcribeWithFileAPI` and
`transcribeWithInlineData`: an `.ok` outcome is the response text (accepted
only when its trim is non-empty — an empty text continues without recording an
error and without sleeping); a thrown error is recorded as `lastError` and, for
attempts before the third, followed by a fixed `backoffMs` sleep.  On
exhaustion the last recorded error (or the loop's fallback error) is thrown. -/
def genGo (outcome : Nat → Except String String) (backoffMs : Nat) (fallback : String) :
    Nat → Nat → Option String → Except String String × List Nat
  | _, 0, lastErr => (.error (lastErr.getD fallback), [])
  | attempt, fuel+1, lastErr =>
    match outcome attempt with
    | .ok t =>
      if Chunking.jsTrim t ≠ "" then (.ok (Chunking.jsTrim t), [])
      else genGo outcome backoffMs fallback (attempt + 1) fuel lastErr
    | .error e =>
      let r := genGo outcome backoffMs fallback (attempt + 1) fuel (some e)
      if attempt < 3 then (r.1, backoffMs :: r.2) else (r.1, r.2)

/-- The File-API generation loop: 3 attempts, fixed 3000 ms backoff. -/
def fileAPIGenRetry (outcome : Nat → Except String String) :
    Except String String × List Nat :=
  genGo outcome 3000 "Transcription failed with File API" 1 3 none

/-- The inline-data generation loop: 3 attempts, fixed 2000 ms backoff. -/
def inlineGenRetry (outcome : Nat → Except String String) :
    Except String String × List Nat :=
  genGo outcome 2000 "Transcription failed with inline data" 1 3 none

end Retry

namespace Progress

open Pipeline

/-- Which transcription strategy a successful run takes, with the run's
external parameters: `chunked n` is the chunked path over `n` produced chunks;
`fileAPI u w g` is the upload-then-reference path whose upload succeeds on
attempt `u`, whose processing poll loops `w` times and whose generation
succeeds on attempt `g`; `inlineData g` is the inline path with generation
success on attempt `g`. -/
inductive TranscriptionPath
  | chunked (n : Nat)
  | fileAPI (u w g : Nat)
  | inlineData (g : Nat)

/-- Parameter ranges a successful run can produce: at least one chunk
(zero chunks throws), success within the 3 retry attempts, and at most
`maxWait = 60` poll iterations. -/
def pathValid : TranscriptionPath → Prop
  | .chunked n => 1 ≤ n
  | .fileAPI u w g => 1 ≤ u ∧ u ≤ 3 ∧ w ≤ 60 ∧ 1 ≤ g ∧ g ≤ 3
  | .inlineData g => 1 ≤ g ∧ g ≤ 3

/-- The progress values reported by the `onProgress` callbacks of the selected
strategy, in order.  Chunked: 50 at splitting, `50 + ⌊40·i/n⌋` before chunk
`i`, 95 at merging, 100 on completion.  File API: 50 at upload start,
`50 + attempt` per upload attempt, 55 after upload, `55 + min(waitCount, 10)`
per poll, 65 after polling, `65 + 2·attempt` per generation attempt, 70 on
success.  Inline: 50 at read, 55 before the loop, `55 + 5·attempt` per
attempt, 70 on success. -/
def strategyProgress : TranscriptionPath → List Nat
  | .chunked n =>
    50 :: (((List.range n).map fun i => 50 + 40 * i / n) ++ [95, 100])
  | .fileAPI u w g =>
    50 :: (((List.range u).map fun t => 50 + (t + 1))
      ++ 55 :: (((List.range w).map fun j => 55 + min (j + 1) 10)
      ++ 65 :: (((List.range g).map fun t => 65 + (t + 1) * 2) ++ [70])))
  | .inlineData g =>
    50 :: 55 :: (((List.range g).map fun t => 55 + (t + 1) * 5) ++ [70])

/-- The `(status, progress)` pairs written to the job by a successful
download-and-transcription phase (`processVideoAsync`): the initial
`downloading` checkpoint at 5, the download callbacks at 10/15/25/40, the
`transcribing` checkpoint at 45, the transcription callbacks (45 and 48 from
`transcribeAudio`, then the strategy's), and the completion checkpoint at
70. -/
def transcriptionPhaseUpdates (p : TranscriptionPath) : List (VideoStatus × Nat) :=
  (VideoStatus.downloading, 5)
    :: (([10, 15, 25, 40].map fun q => (VideoStatus.downloading, q)))
    ++ (VideoStatus.transcribing, 45)
    :: ((45 :: 48 :: strategyProgress p).map fun q => (VideoStatus.transcribing, q))
    ++ [(VideoStatus.completed, 70)]

/-- The `(status, progress)` pairs of a successful analysis phase: the
`analyzing` checkpoint at 75 written by `analyzeVideo`, the
`factCheckTranscription` callbacks at 75/80/90/100, and the completion
checkpoint at 100. -/
def analysisPhaseUpdates : List (VideoStatus × Nat) :=
  (VideoStatus.analyzing, 75)
    :: ([75, 80, 90, 100].map fun q => (VideoStatus.analyzing, q))
    ++ [(VideoStatus.completed, 100)]

/-- All updates of a job that transcribes successfully along path `p` and is
then analyzed successfully.  No update carries status `error`. -/
def jobUpdates (p : TranscriptionPath) : List (VideoStatus × Nat) :=
  transcriptionPhaseUpdates p ++ analysisPhaseUpdates

end Progress

namespace FactCheck

/-- C1: the scoring engine is deterministic: an empty claim set scores exactly
100; a non-empty claim set scores
`round((100*true + 50*partially_true + 50*unverifiable + 0*false) / total)`;
and the statuses `[true, true, false, partially_true]` yield exactly 63. -/
theorem scoring_engine_deterministic (apiKey : String) (hk : apiKey ≠ "") :
    (∀ v, factCheckTranscription apiKey (some []) v
        = .ok { claims := [], overallScore := 100, summary := ⟨0, 0, 0, 0, 0⟩ }) ∧
    (∀ e v r, factCheckTranscription apiKey e v = .ok r → r.summary.totalClaims ≠ 0 →
        r.overallScore
          = round (((100 * r.summary.trueClaims + 50 * r.summary.partiallyTrueClaims
              + 50 * r.summary.unverifiableClaims + 0 * r.summary.falseClaims : Nat) : ℚ)
              / (r.summary.totalClaims : ℚ))) ∧
    (∀ r, factCheckTranscription apiKey (some fourExtracted) (some fourVerdicts) = .ok r →
        r.overallScore = 63) := by
  refine ⟨?_, ?_, ?_⟩
  · intro v
    simp [factCheckTranscription, hk, placeholderClaims]
  · intro e v r hr htot
    simp only [factCheckTranscription, if_neg hk] at hr
    split at hr
    · cases hr
      simp at htot
    · cases hr
      have : (mkSummary (assembleClaims (e.getD placeholderClaims)
          ((v.getD (unverifiableAll (e.getD placeholderClaims)))))).totalClaims ≠ 0 := htot
      simp only [overallScoreOf, if_neg this]
      ring_nf
  · intro r hr
    simp only [factCheckTranscription, if_neg hk, Option.getD_some] at hr
    rw [if_neg (by decide : ¬ (fourExtracted.length = 0))] at hr
    cases hr
    show overallScoreOf (mkSummary (assembleClaims fourExtracted fourVerdicts)) = 63
    rw [show mkSummary (assembleClaims fourExtracted fourVerdicts) = ⟨4, 2, 1, 1, 0⟩ from by
      decide]
    norm_num [overallScoreOf, round_eq]

/-- Witness for C1 at a concrete key. -/
theorem scoring_engine_deterministic_witness :
    factCheckTranscription "k" (some []) none
        = .ok { claims := [], overallScore := 100, summary := ⟨0, 0, 0, 0, 0⟩ } :=
  (scoring_engine_deterministic "k" (by decide)).1 none

/-- The assembled claim at index `i` pairs the `i`-th extracted claim with the
first verdict whose `claimIndex` field equals `i` (default `fallbackCheck`). -/
theorem assembleClaims_getElem? (e : List ExtractedClaim) (fcd : List Verdict) (i : Nat) :
    (assembleClaims e fcd)[i]? =
      (e[i]?).map fun c =>
        buildClaim c ((fcd.find? fun f => f.claimIndex = (i : Int)).getD fallbackCheck) := by
  simp [assembleClaims, List.getElem?_enum, Option.map_map]
  rfl

/-- Every assembled claim is the `buildClaim` of some enumerated extracted
claim and its matched verdict. -/
theorem mem_assembleClaims {e : List ExtractedClaim} {fcd : List Verdict} {c : Claim}
    (hc : c ∈ assembleClaims e fcd) :
    ∃ p ∈ e.enum,
      c = buildClaim p.2 ((fcd.find? fun f => f.claimIndex = (p.1 : Int)).getD fallbackCheck) := by
  simpa [assembleClaims, List.mem_map, eq_comm] using hc

/-- C3: every assembled claim whose final status is `true` has an empty
`sources` list, even when the verifier returned sources for it; claims with
any other status keep the matched verdict's sources, defaulting to empty when
absent; and the rule holds for every report `factCheckTranscription`
returns. -/
theorem true_claims_have_empty_sources :
    (∀ (e : List ExtractedClaim) (fcd : List Verdict),
        ∀ c ∈ assembleClaims e fcd, c.status = "true" → c.sources = []) ∧
    (∀ (e : List ExtractedClaim) (fcd : List Verdict) (i : Nat) (c : Claim),
        (assembleClaims e fcd)[i]? = some c →
          c.status = ((fcd.find? fun f => f.claimIndex = (i : Int)).getD fallbackCheck).status ∧
          c.sources =
            (if ((fcd.find? fun f => f.claimIndex = (i : Int)).getD fallbackCheck).status
                = "true" then ([] : List String)
             else ((fcd.find? fun f =>
                f.claimIndex = (i : Int)).getD fallbackCheck).sources.getD [])) ∧
    (∀ (apiKey : String) (e : Option (List ExtractedClaim)) (v : Option (List Verdict))
        (r : FactCheckResult), factCheckTranscription apiKey e v = .ok r →
        ∀ c ∈ r.claims, c.status = "true" → c.sources = []) := by
  have h1 : ∀ (e : List ExtractedClaim) (fcd : List Verdict),
      ∀ c ∈ assembleClaims e fcd, c.status = "true" → c.sources = [] := by
    intro e fcd c hc hstat
    obtain ⟨p, _, rfl⟩ := mem_assembleClaims hc
    simp only [buildClaim] at hstat ⊢
    rw [if_pos hstat]
  refine ⟨h1, ?_, ?_⟩
  · intro e fcd i c hc
    rw [assembleClaims_getElem?] at hc
    rcases h : e[i]? with _ | ec
    · rw [h] at hc
      simp at hc
    · rw [h] at hc
      simp only [Option.map_some'] at hc
      cases hc
      exact ⟨rfl, rfl⟩
  · intro apiKey e v r hr c hcmem hstat
    by_cases hk : apiKey = ""
    · simp [factCheckTranscription, hk] at hr
    · simp only [factCheckTranscription, if_neg hk] at hr
      split at hr
      · cases hr
        simp at hcmem
      · cases hr
        exact h1 _ _ c hcmem hstat

/-- Witness for C3: the true-status verdict that returned sources yields an
assembled claim with an empty source list. -/
theorem true_claims_have_empty_sources_witness :
    (buildClaim ⟨"a", none⟩ trueVerdictWithSources).sources = [] :=
  (true_claims_have_empty_sources).1 oneExtracted [trueVerdictWithSources] _
    (by decide) (by decide)

/-- C6 counterexample: with two extracted claims and a single verdict that
declares `claimIndex` 1, positional matching would give the verdict to index 0,
but the code gives index 0 the default and index 1 the verdict. -/
theorem claim_matching_positional_counterexample :
    assembleClaims twoExtracted oneVerdictAtIndexOne
        ≠ assembleClaimsPositional twoExtracted oneVerdictAtIndexOne ∧
    (assembleClaims twoExtracted oneVerdictAtIndexOne)[0]?.map Claim.status
        = some "unverifiable" ∧
    (assembleClaimsPositional twoExtracted oneVerdictAtIndexOne)[0]?.map Claim.status
        = some "false" := by
  decide

/-- C6 (amended): extracted claims are matched to verdicts by the verdict's
declared `claimIndex` field (first match), not by array position; any index no
verdict declares silently receives the default `unverifiable`/50/"Unable to
verify" verdict, and assembly is total (one output claim per extracted claim,
never an error). -/
theorem claim_matching_by_claimIndex :
    (∀ (e : List ExtractedClaim) (fcd : List Verdict),
        (assembleClaims e fcd).length = e.length) ∧
    (∀ (e : List ExtractedClaim) (fcd : List Verdict) (i : Nat),
        (assembleClaims e fcd)[i]? =
          (e[i]?).map fun c =>
            buildClaim c ((fcd.find? fun f => f.claimIndex = (i : Int)).getD fallbackCheck)) ∧
    fallbackCheck.status = "unverifiable" ∧ fallbackCheck.score = 50 ∧
      fallbackCheck.explanation = "Unable to verify" := by
  refine ⟨?_, assembleClaims_getElem?, rfl, rfl, rfl⟩
  intro e fcd
  simp [assembleClaims]

/-- C8: with the API key configured, a non-parseable extraction response yields
the single placeholder claim, a non-parseable verification response marks every
claim `unverifiable` with score 50, the analysis call never raises, and the
analysis task always completes the job. -/
theorem parse_failures_never_raise (apiKey : String) (hk : apiKey ≠ "") :
    (∀ v r, factCheckTranscription apiKey none v = .ok r →
        r.claims.map Claim.text = ["Unable to extract specific claims"]) ∧
    (∀ e r, factCheckTranscription apiKey e none = .ok r →
        ∀ c ∈ r.claims, c.status = "unverifiable" ∧ c.score = 50) ∧
    (∀ e v, (factCheckTranscription apiKey e v).isOk = true) ∧
    (∀ (job : Pipeline.VideoData) e v,
        (Pipeline.analyzeVideoAsyncStep job (factCheckTranscription apiKey e v)).status
          = .completed) := by
  refine ⟨?_, ?_, ?_, ?_⟩
  · intro v r hr
    simp only [factCheckTranscription, if_neg hk, Option.getD_none] at hr
    rw [if_neg (by decide : ¬(placeholderClaims.length = 0))] at hr
    cases hr
    simp [assembleClaims, placeholderClaims, buildClaim, List.enum, List.enumFrom]
  · intro e r hr
    by_cases hlen : (e.getD placeholderClaims).length = 0
    · simp only [factCheckTranscription, if_neg hk, if_pos hlen] at hr
      cases hr
      intro c hc
      simp at hc
    · simp only [factCheckTranscription, if_neg hk, if_neg hlen, Option.getD_none] at hr
      cases hr
      intro c hc
      obtain ⟨p, _, rfl⟩ := mem_assembleClaims hc
      rcases hf : (unverifiableAll (e.getD placeholderClaims)).find?
          (fun f => f.claimIndex = (p.1 : Int)) with _ | f
      · rw [hf]
        exact ⟨rfl, rfl⟩
      · rw [hf]
        have hmem := List.mem_of_find?_eq_some hf
        simp only [unverifiableAll, List.mem_map] at hmem
        obtain ⟨q, _, rfl⟩ := hmem
        exact ⟨rfl, rfl⟩
  · intro e v
    simp only [factCheckTranscription, if_neg hk]
    split <;> rfl
  · intro job e v
    simp only [factCheckTranscription, if_neg hk]
    split <;> rfl

/-- Witness for C8 at a concrete key and doubly-unparseable responses. -/
theorem parse_failures_never_raise_witness :
    (factCheckTranscription "k" none none).isOk = true :=
  (parse_failures_never_raise "k" (by decide)).2.2.1 none none

end FactCheck

namespace Pipeline

/-- C7 counterexample: a job in `error` status (analysis failure) still holding
its transcription is transitioned back to `analyzing` by `analyzeVideo`, so
`error` is not terminal. -/
theorem error_status_not_terminal :
    errorJobWithTranscript.status = .error ∧
    (analyzeVideo (fun _ => some errorJobWithTranscript) "j").toOption.map VideoData.status
      = some .analyzing := by
  decide

/-- C7 (amended): `analyzeVideo` gates re-entry into `analyzing` only on the
presence of a (non-empty) transcription and on not being already `analyzing`;
an `error` job without a transcription is terminal, but an `error` job whose
analysis failed after transcription can re-enter `analyzing`. -/
theorem analyze_reentry_guards (jobs : String → Option VideoData) (id : String)
    (job : VideoData) (h : jobs id = some job) :
    (job.transcription.getD "" = "" → analyzeVideo jobs id = .error .notYetTranscribed) ∧
    (job.transcription.getD "" ≠ "" → job.status = .analyzing →
        analyzeVideo jobs id = .error .alreadyAnalyzing) ∧
    (job.transcription.getD "" ≠ "" → job.status ≠ .analyzing →
        analyzeVideo jobs id
          = .ok { job with
                  status := .analyzing, progress := 75,
                  statusMessage := "Starting fact-check analysis..." }) := by
  refine ⟨?_, ?_, ?_⟩
  · intro ht
    simp [analyzeVideo, h, ht]
  · intro ht hs
    simp [analyzeVideo, h, ht, hs]
  · intro ht hs
    simp [analyzeVideo, h, ht, hs]

/-- Witness for C7 (amended): concrete re-entry from the error job. -/
theorem analyze_reentry_guards_witness :
    analyzeVideo (fun _ => some errorJobWithTranscript) "j"
      = .ok { errorJobWithTranscript with
              status := .analyzing, progress := 75,
              statusMessage := "Starting fact-check analysis..." } :=
  (analyze_reentry_guards (fun _ => some errorJobWithTranscript) "j"
    errorJobWithTranscript rfl).2.2 (by decide) (by decide)

/-- C10 counterexample: the host `notyoutube.com` is not one of the
allow-listed platform domains, yet validation accepts it (substring test) and
submission succeeds. -/
theorem submit_allowlist_counterexample :
    isValidPlatformUrl (some "notyoutube.com") = true ∧
    supportedPlatforms.contains "notyoutube.com" = false ∧
    jsReplaceWWW "notyoutube.com" = "notyoutube.com" ∧
    (processVideo (fun _ => none) "id1" (some "https://notyoutube.com/v")
        (some "notyoutube.com") (some "en")).isOk = true := by
  decide

/-- C10 (amended): submission fails exactly when the url or language is
missing, no allow-listed platform domain occurs as a substring of the
(`www.`-stripped, lowercased) host — including when the URL fails to parse —
or the language code is unsupported; on success the created job is `pending`
at progress 0 and is already visible to `getVideoStatus` in the returned job
table. -/
theorem submit_validation (jobs : String → Option VideoData) (newId : String)
    (url host language : Option String) :
    ((processVideo jobs newId url host language).isOk = true ↔
      url.isSome = true ∧
      (∃ lang, language = some lang ∧
        (supportedLanguages.find? fun l => l.code = lang).isSome = true) ∧
      isValidPlatformUrl host = true) ∧
    (∀ job jobTable, processVideo jobs newId url host language = .ok (job, jobTable) →
      job.status = .pending ∧ job.progress = 0 ∧ jobTable newId = some job ∧
      getVideoStatus jobTable newId
        = .ok { id := newId, status := .pending, progress := 0
                statusMessage := "Initializing...", title := none
                platform := extractPlatform host, transcription := none
                error := none }) := by
  have hmain : ∀ (u lang : String),
      (processVideo jobs newId (some u) host (some lang)).isOk = true ↔
        ((supportedLanguages.find? fun l => l.code = lang).isSome = true ∧
          isValidPlatformUrl host = true) := by
    intro u lang
    simp only [processVideo]
    by_cases hv : isValidPlatformUrl host = true
    · rcases hfind : supportedLanguages.find? fun l => l.code = lang with _ | l <;>
        simp [hfind, hv, Except.isOk, Except.toBool]
    · have hv2 : isValidPlatformUrl host = false := by simpa using hv
      simp [hv2, Except.isOk, Except.toBool]
  constructor
  · cases url with
    | none =>
      constructor
      · intro hok
        exact absurd hok (by simp [processVideo, Except.isOk, Except.toBool])
      · rintro ⟨h, -, -⟩
        simp at h
    | some u =>
      cases language with
      | none =>
        constructor
        · intro hok
          exact absurd hok (by simp [processVideo, Except.isOk, Except.toBool])
        · rintro ⟨-, ⟨lang, hl, -⟩, -⟩
          cases hl
      | some lang =>
        rw [hmain u lang]
        constructor
        · rintro ⟨hfind, hv⟩
          exact ⟨rfl, ⟨lang, rfl, hfind⟩, hv⟩
        · rintro ⟨-, ⟨lang2, hl, hfind⟩, hv⟩
          cases hl
          exact ⟨hfind, hv⟩
  · intro job jobTable h
    cases url with
    | none => exact absurd h (by simp [processVideo])
    | some u =>
      cases language with
      | none => exact absurd h (by simp [processVideo])
      | some lang =>
        simp only [processVideo] at h
        by_cases hv : isValidPlatformUrl host = true
        · rw [if_neg (by simp [hv])] at h
          rcases hfind : supportedLanguages.find? fun l => l.code = lang with _ | l
          · rw [hfind] at h
            simp at h
          · rw [hfind] at h
            rw [if_neg (by simp)] at h
            cases h
            refine ⟨rfl, rfl, by simp, by simp [getVideoStatus]⟩
        · rw [if_pos (by simpa using hv)] at h
          simp at h

/-- Witness for C10 (amended): a well-formed submission is accepted. -/
theorem submit_validation_witness :
    (processVideo (fun _ => none) "id1" (some "https://www.youtube.com/watch?v=1")
        (some "www.youtube.com") (some "en")).isOk = true :=
  (submit_validation (fun _ => none) "id1" (some "https://www.youtube.com/watch?v=1")
      (some "www.youtube.com") (some "en")).1.mpr
    ⟨rfl, ⟨"en", rfl, by decide⟩, by decide⟩

end Pipeline

namespace Chunking

/-- Unfolding of one `while` iteration with fuel left. -/
theorem splitLoop_fuel_succ (total chunkDuration : ℚ) (extractOk : Nat → Bool)
    (startTime : ℚ) (idx fuel : Nat) :
    splitLoop total chunkDuration extractOk startTime idx (fuel + 1) =
      if startTime < total then
        (if extractOk idx then [⟨startTime, min chunkDuration (total - startTime)⟩] else [])
          ++ splitLoop total chunkDuration extractOk (startTime + chunkDuration) (idx + 1) fuel
      else [] := rfl

/-- The cutting loop started at offset `chunkDuration·k` with enough fuel
produces exactly the windows at indices `k, k+1, …, ⌈total/chunkDuration⌉ - 1`
that extracted successfully: index `j` starts at `chunkDuration·j` and lasts
`min(chunkDuration, total - chunkDuration·j)` seconds. -/
theorem splitLoop_eq (total chunkDuration : ℚ) (hcd : 0 < chunkDuration)
    (extractOk : Nat → Bool) :
    ∀ (fuel k : Nat), total ≤ chunkDuration * ((k + fuel : Nat) : ℚ) →
      splitLoop total chunkDuration extractOk (chunkDuration * k) k fuel =
        (List.range' k ((⌈total / chunkDuration⌉).toNat - k)).filterMap fun j =>
          if extractOk j then
            some ⟨chunkDuration * j, min chunkDuration (total - chunkDuration * j)⟩
          else none := by
  intro fuel
  induction fuel with
  | zero =>
    intro k hk
    have hceil : (⌈total / chunkDuration⌉).toNat ≤ k := by
      rw [Int.toNat_le, Int.ceil_le, div_le_iff hcd]
      push_cast at hk ⊢
      linarith
    simp [splitLoop, Nat.sub_eq_zero_of_le hceil]
  | succ fuel ih =>
    intro k hk
    by_cases hlt : chunkDuration * (k : ℚ) < total
    · have hkc : k < (⌈total / chunkDuration⌉).toNat := by
        rw [Int.lt_toNat, Int.lt_ceil, lt_div_iff hcd]
        push_cast
        linarith
      rw [splitLoop_fuel_succ, if_pos hlt]
      have harg : chunkDuration * (k : ℚ) + chunkDuration
          = chunkDuration * (((k + 1 : Nat)) : ℚ) := by
        push_cast
        ring
      rw [harg, ih (k + 1) (by push_cast at hk ⊢; linarith)]
      have hsub : (⌈total / chunkDuration⌉).toNat - k
          = ((⌈total / chunkDuration⌉).toNat - (k + 1)) + 1 := by omega
      rw [hsub, List.range'_succ, List.filterMap_cons]
      by_cases hok : extractOk k
      · simp [hok]
      · simp [hok]
    · have hceil : (⌈total / chunkDuration⌉).toNat ≤ k := by
        rw [Int.toNat_le, Int.ceil_le, div_le_iff hcd]
        push_cast
        push_neg at hlt
        linarith
      rw [splitLoop_fuel_succ, if_neg hlt]
      simp [Nat.sub_eq_zero_of_le hceil]

/-- `splitAudioIntoChunks` on a positive duration: the full window list,
filtered by extraction success. -/
theorem splitAudioIntoChunks_eq (total chunkDuration : ℚ) (ht : 0 < total)
    (hcd : 0 < chunkDuration) (extractOk : Nat → Bool) :
    splitAudioIntoChunks total chunkDuration extractOk =
      .ok ((List.range ((⌈total / chunkDuration⌉).toNat)).filterMap fun j =>
        if extractOk j then
          some ⟨chunkDuration * j, min chunkDuration (total - chunkDuration * j)⟩
        else none) := by
  have hpos : (0 : ℤ) ≤ ⌈total / chunkDuration⌉ :=
    Int.ceil_nonneg (by positivity)
  have hfuel : total ≤ chunkDuration * (((0 + (⌈total / chunkDuration⌉).toNat : Nat)) : ℚ) := by
    have h1 : total / chunkDuration ≤ ((⌈total / chunkDuration⌉ : ℤ) : ℚ) :=
      Int.le_ceil _
    rw [div_le_iff hcd] at h1
    have h3 : (((⌈total / chunkDuration⌉).toNat : ℕ) : ℤ) = ⌈total / chunkDuration⌉ :=
      Int.toNat_of_nonneg hpos
    have h4 : ((⌈total / chunkDuration⌉ : ℤ) : ℚ)
        = (((⌈total / chunkDuration⌉).toNat : ℕ) : ℚ) := by
      exact_mod_cast (congrArg (fun z : ℤ => (z : ℚ)) h3).symm
    calc total ≤ ((⌈total / chunkDuration⌉ : ℤ) : ℚ) * chunkDuration := h1
      _ = chunkDuration * (((0 + (⌈total / chunkDuration⌉).toNat : Nat)) : ℚ) := by
          rw [h4]
          push_cast
          ring
  have h := splitLoop_eq total chunkDuration hcd extractOk
    ((⌈total / chunkDuration⌉).toNat) 0 hfuel
  rw [splitAudioIntoChunks, if_neg (not_le.mpr ht)]
  have h0 : chunkDuration * ((0 : Nat) : ℚ) = 0 := by
    push_cast
    ring
  rw [h0] at h
  rw [h]
  simp [List.range_eq_range']

end Chunking

namespace Chunking

/-- C4: durations at or below the 600 s threshold produce zero chunks (the
single-unit path); durations above it are cut into consecutive 300 s windows
with zero overlap, the last truncated to the remainder; a 1200 s audio yields
exactly 4 chunks at offsets 0/300/600/900, each 300 s; a 500 s audio yields
none. -/
theorem chunking_decision_and_arithmetic :
    (∀ d : ℚ, d ≤ 600 → ∀ ok, chunksProduced d ok = []) ∧
    (∀ d : ℚ, 600 < d →
        chunksProduced d (fun _ => true) =
          (List.range ((⌈d / 300⌉).toNat)).map fun k =>
            ⟨300 * k, min 300 (d - 300 * k)⟩) ∧
    chunksProduced 1200 (fun _ => true)
      = [⟨0, 300⟩, ⟨300, 300⟩, ⟨600, 300⟩, ⟨900, 300⟩] ∧
    chunksProduced 500 (fun _ => true) = [] := by
  have h1 : ∀ d : ℚ, d ≤ 600 → ∀ ok, chunksProduced d ok = [] := by
    intro d hd ok
    simp only [chunksProduced, CHUNKING_THRESHOLD_SECONDS]
    rw [if_neg (by push_neg; linarith)]
  have h2 : ∀ d : ℚ, 600 < d →
      chunksProduced d (fun _ => true) =
        (List.range ((⌈d / 300⌉).toNat)).map fun k =>
          ⟨300 * k, min 300 (d - 300 * k)⟩ := by
    intro d hd
    have hd0 : (0 : ℚ) < d := by linarith
    simp only [chunksProduced, CHUNKING_THRESHOLD_SECONDS, CHUNK_DURATION_SECONDS]
    rw [if_pos (by norm_num; linarith)]
    rw [splitAudioIntoChunks_eq d (5 * 60) hd0 (by norm_num) (fun _ => true)]
    norm_num [Except.toOption]
    exact congrFun (List.filterMap_eq_map _) _
  refine ⟨h1, h2, ?_, h1 500 (by norm_num) _⟩
  rw [h2 1200 (by norm_num)]
  rw [show (⌈(1200 : ℚ) / 300⌉) = (4 : ℤ) from by norm_num]
  rw [show ((4 : ℤ)).toNat = 4 from rfl]
  rw [show List.range 4 = [0, 1, 2, 3] from rfl]
  simp only [List.map_cons, List.map_nil]
  norm_num [min_def]

/-- Witness for C4 at the concrete below-threshold duration. -/
theorem chunking_decision_and_arithmetic_witness :
    chunksProduced 450 (fun _ => false) = [] :=
  (chunking_decision_and_arithmetic).1 450 (by norm_num) _

end Chunking

namespace Chunking

/-- The accumulation loop collects exactly the surviving chunks' texts, in
chunk order, indexed from its starting position. -/
theorem chunkLoop_eq_enumFrom (outcome : Nat → ChunkOutcome) :
    ∀ (chunks : List ChunkInfo) (i : Nat),
      chunkLoop outcome i chunks =
        (chunks.enumFrom i).filterMap fun p =>
          match outcome p.1 with
          | .transcribed t =>
            if jsTrim t ≠ "" then
              some ("\n[" ++ formatTimestamp p.2.startTime ++ "]\n" ++ jsTrim t)
            else none
          | _ => none := by
  intro chunks
  induction chunks with
  | nil =>
    intro i
    simp [chunkLoop]
  | cons c rest ih =>
    intro i
    simp only [chunkLoop, List.enumFrom, List.filterMap_cons, ih (i + 1)]
    cases h : outcome i with
    | transcribed t =>
      by_cases htr : jsTrim t ≠ ""
      · simp [htr]
      · simp [htr]
    | uploadFailed => simp
    | processingFailed => simp

/-- C5: a failed or empty chunk never fails the job — `transcribeWithChunking`
errors exactly when zero chunks produced output (including the no-chunks
case); with at least one survivor the result is the ordered blank-line join of
the surviving header-prefixed chunk transcripts; and the splitter itself never
throws on per-chunk extraction failure (only on a non-positive probed
duration). -/
theorem chunk_failures_skipped (chunks : List ChunkInfo) (outcome : Nat → ChunkOutcome) :
    ((transcribeWithChunking chunks outcome).isOk = true ↔
      survivorTexts chunks outcome ≠ []) ∧
    (survivorTexts chunks outcome ≠ [] →
      transcribeWithChunking chunks outcome
        = .ok (String.intercalate "\n\n" (survivorTexts chunks outcome))) ∧
    (∀ (total chunkDuration : ℚ) (extractOk : Nat → Bool), 0 < total →
      (splitAudioIntoChunks total chunkDuration extractOk).isOk = true) := by
  have hs : survivorTexts chunks outcome = chunkLoop outcome 0 chunks := by
    rw [chunkLoop_eq_enumFrom]
    rfl
  refine ⟨?_, ?_, ?_⟩
  · by_cases hc : chunks.length = 0
    · rw [List.length_eq_zero.mp hc] at hs ⊢
      simp [transcribeWithChunking, Except.isOk, Except.toBool, hs, chunkLoop]
    · simp only [transcribeWithChunking, if_neg hc]
      by_cases ht : (chunkLoop outcome 0 chunks).length = 0
      · rw [if_pos ht]
        simp [Except.isOk, Except.toBool, hs, List.length_eq_zero.mp ht]
      · rw [if_neg ht]
        simp only [Except.isOk, Except.toBool]
        constructor
        · intro _
          rw [hs]
          intro h0
          exact ht (by rw [h0]; rfl)
        · intro _
          trivial
  · intro hne
    rw [hs] at hne
    have hlen0 : ¬ chunks.length = 0 := by
      intro h0
      apply hne
      rw [List.length_eq_zero.mp h0]
      rfl
    have hlen1 : ¬ (chunkLoop outcome 0 chunks).length = 0 := by
      intro h1
      exact hne (List.length_eq_zero.mp h1)
    simp only [transcribeWithChunking, if_neg hlen0, if_neg hlen1]
    rw [hs]
  · intro total chunkDuration extractOk htot
    simp [splitAudioIntoChunks, not_le.mpr htot, Except.isOk, Except.toBool]

/-- Witness for C5: one chunk, one successful transcript, merged verbatim. -/
theorem chunk_failures_skipped_witness :
    transcribeWithChunking [⟨0, 300⟩] (fun _ => ChunkOutcome.transcribed "hello")
      = .ok "\n[00:00]\nhello" := by
  have hfmt : formatTimestamp 0 = "00:00" := by
    have h1 : (⌊(0 : ℚ) / 60⌋ : ℤ) = 0 := by norm_num
    have h2 : (⌊(0 : ℚ)⌋ : ℤ) = 0 := by norm_num
    rw [formatTimestamp, h1, h2]
    rfl
  have hsv : survivorTexts [⟨0, 300⟩] (fun _ => ChunkOutcome.transcribed "hello")
      = ["\n[00:00]\nhello"] := by
    rw [survivorTexts]
    simp only [List.enum]
    rw [show List.enumFrom 0 [(⟨0, 300⟩ : ChunkInfo)] = [(0, ⟨0, 300⟩)] from rfl]
    simp only [List.filterMap_cons, List.filterMap_nil]
    rw [show jsTrim "hello" = "hello" from rfl] at *
    simp [hfmt]
  have h := (chunk_failures_skipped [⟨0, 300⟩]
    (fun _ => ChunkOutcome.transcribed "hello")).2.1 (by rw [hsv]; simp)
  rw [hsv] at h
  rw [h]
  rfl

end Chunking

namespace Retry

/-- Exhausted fuel throws the recorded (or fallback) error. -/
theorem uploadGo_zero {α : Type} (outcome : Nat → Except String α) (maxRetries attempt : Nat)
    (lastErr : Option String) :
    uploadGo outcome maxRetries attempt 0 lastErr
      = (.error (lastErr.getD "Upload failed after all retries"), []) := rfl

/-- One iteration of the upload retry loop. -/
theorem uploadGo_succ {α : Type} (outcome : Nat → Except String α)
    (maxRetries attempt fuel : Nat) (lastErr : Option String) :
    uploadGo outcome maxRetries attempt (fuel + 1) lastErr =
      match outcome attempt with
      | .ok a => (.ok a, [])
      | .error e =>
        if attempt < maxRetries then
          ((uploadGo outcome maxRetries (attempt + 1) fuel (some e)).1,
            2 ^ attempt * 1000 :: (uploadGo outcome maxRetries (attempt + 1) fuel (some e)).2)
        else uploadGo outcome maxRetries (attempt + 1) fuel (some e) := by
  cases h : outcome attempt <;> simp [uploadGo, h]

/-- Exhausted fuel in a generation loop. -/
theorem genGo_zero (outcome : Nat → Except String String) (backoffMs : Nat)
    (fallback : String) (attempt : Nat) (lastErr : Option String) :
    genGo outcome backoffMs fallback attempt 0 lastErr
      = (.error (lastErr.getD fallback), []) := rfl

/-- One iteration of a generation retry loop. -/
theorem genGo_succ (outcome : Nat → Except String String) (backoffMs : Nat)
    (fallback : String) (attempt fuel : Nat) (lastErr : Option String) :
    genGo outcome backoffMs fallback attempt (fuel + 1) lastErr =
      match outcome attempt with
      | .ok t =>
        if Chunking.jsTrim t ≠ "" then (.ok (Chunking.jsTrim t), [])
        else genGo outcome backoffMs fallback (attempt + 1) fuel lastErr
      | .error e =>
        if attempt < 3 then
          ((genGo outcome backoffMs fallback (attempt + 1) fuel (some e)).1,
            backoffMs :: (genGo outcome backoffMs fallback (attempt + 1) fuel (some e)).2)
        else genGo outcome backoffMs fallback (attempt + 1) fuel (some e) := by
  cases h : outcome attempt <;> simp [genGo, h]

/-- A generation loop only consults the attempts its fuel allows. -/
theorem genGo_congr (backoffMs : Nat) (fallback : String) :
    ∀ (fuel attempt : Nat) (lastErr : Option String)
      (outS outS2 : Nat → Except String String),
      (∀ j, attempt ≤ j → j < attempt + fuel → outS j = outS2 j) →
      genGo outS backoffMs fallback attempt fuel lastErr
        = genGo outS2 backoffMs fallback attempt fuel lastErr := by
  intro fuel
  induction fuel with
  | zero =>
    intro attempt lastErr outS outS2 _
    rfl
  | succ fuel ih =>
    intro attempt lastErr outS outS2 hagree
    rw [genGo_succ, genGo_succ, hagree attempt (le_refl _) (by omega)]
    have hrec : ∀ le2, genGo outS backoffMs fallback (attempt + 1) fuel le2
        = genGo outS2 backoffMs fallback (attempt + 1) fuel le2 :=
      fun le2 => ih (attempt + 1) le2 outS outS2 (fun j h1 h2 => hagree j (by omega) (by omega))
    cases outS2 attempt with
    | ok t =>
      by_cases htr : Chunking.jsTrim t ≠ ""
      · simp [htr]
      · simp [htr, hrec]
    | error e =>
      simp [hrec]

/-- C9: the upload retry loop makes at most 3 attempts, returns the first
success, sleeps 2 s then 4 s between failed attempts (exponential backoff
starting at 2 s) and throws the error of the last attempt when all three fail;
the generation loops likewise make at most 3 attempts (consulting nothing
beyond them), use a fixed backoff of 3000 ms (file API) resp. 2000 ms
(inline), and surface the last error on exhaustion. -/
theorem retry_discipline {α : Type} (outcome : Nat → Except String α)
    (outS : Nat → Except String String) :
    (uploadWithRetry outcome 3 =
      match outcome 1 with
      | .ok a => (.ok a, [])
      | .error _ =>
        match outcome 2 with
        | .ok a => (.ok a, [2000])
        | .error _ =>
          match outcome 3 with
          | .ok a => (.ok a, [2000, 4000])
          | .error e => (.error e, [2000, 4000])) ∧
    (∀ t, outS 1 = .ok t → Chunking.jsTrim t ≠ "" →
        fileAPIGenRetry outS = (.ok (Chunking.jsTrim t), []) ∧
        inlineGenRetry outS = (.ok (Chunking.jsTrim t), [])) ∧
    (∀ e1 e2 e3, outS 1 = .error e1 → outS 2 = .error e2 → outS 3 = .error e3 →
        fileAPIGenRetry outS = (.error e3, [3000, 3000]) ∧
        inlineGenRetry outS = (.error e3, [2000, 2000])) ∧
    (∀ outS2 : Nat → Except String String,
        outS 1 = outS2 1 → outS 2 = outS2 2 → outS 3 = outS2 3 →
        fileAPIGenRetry outS = fileAPIGenRetry outS2 ∧
        inlineGenRetry outS = inlineGenRetry outS2) := by
  refine ⟨?_, ?_, ?_, ?_⟩
  · show uploadGo outcome 3 1 3 none = _
    cases h1 : outcome 1 with
    | ok a => simp [uploadGo, h1]
    | error er1 =>
      cases h2 : outcome 2 with
      | ok a => simp [uploadGo, h1, h2]
      | error er2 =>
        cases h3 : outcome 3 with
        | ok a => simp [uploadGo, h1, h2, h3]
        | error er3 => simp [uploadGo, h1, h2, h3]
  · intro t h1 htr
    constructor <;> simp [fileAPIGenRetry, inlineGenRetry, genGo, h1, htr]
  · intro er1 er2 er3 h1 h2 h3
    constructor <;> simp [fileAPIGenRetry, inlineGenRetry, genGo, h1, h2, h3]
  · intro outS2 h1 h2 h3
    constructor <;>
      exact genGo_congr _ _ 3 1 none outS outS2
        (fun j hj1 hj2 => by interval_cases j <;> assumption)

/-- Witness for C9: three failed generation attempts surface the last error
after two fixed 3-second backoffs. -/
theorem retry_discipline_witness :
    fileAPIGenRetry (fun _ => .error "boom") = (.error "boom", [3000, 3000]) :=
  ((retry_discipline (fun _ => (.error "x" : Except String Nat))
      (fun _ => .error "boom")).2.2.1 "boom" "boom" "boom" rfl rfl rfl).1

end Retry

namespace Progress

open Pipeline

/-- C2 counterexample: in the chunked path the transcription callbacks end at
progress 100 and the completion checkpoint then writes 70, a decrease, while
the status is never `error`; with 2 chunks the update sequence is not
non-decreasing. -/
theorem progress_monotonic_counterexample :
    pathValid (.chunked 2) ∧
    ¬ List.Chain' (fun a b : VideoStatus × Nat => a.2 ≤ b.2)
        (jobUpdates (.chunked 2)) := by
  constructor
  · show 1 ≤ 2
    omega
  · simp [jobUpdates, transcriptionPhaseUpdates, analysisPhaseUpdates, strategyProgress,
      List.chain'_cons, List.range_succ]

/-- Chaining a monotone-enough mapped segment between a previous value and a
fixed continuation. -/
theorem chain'_seg {R : Nat → Nat → Prop} (f : Nat → Nat) (next : Nat) (tail : List Nat)
    (htail : List.Chain' R (next :: tail)) :
    ∀ (m k prev : Nat), (∀ i, i < m → R (f (k + i)) (f (k + i + 1))) →
      (∀ i, i < m → R (f (k + i)) next) → R prev next →
      (0 < m → R prev (f k)) →
      List.Chain' R (prev :: ((List.range' k m).map f ++ next :: tail)) := by
  intro m
  induction m with
  | zero =>
    intro k prev _ _ hpn _
    simpa using htail.cons hpn
  | succ m ih =>
    intro k prev hmono hbound hpn hpf
    rw [List.range'_succ, List.map_cons, List.cons_append]
    refine List.Chain'.cons (hpf (by omega)) ?_
    have h1 : ∀ i, i < m → R (f (k + 1 + i)) (f (k + 1 + i + 1)) := by
      intro i hi
      have := hmono (i + 1) (by omega)
      rw [show k + (i + 1) = k + 1 + i from by omega] at this
      exact this
    have h2 : ∀ i, i < m → R (f (k + 1 + i)) next := by
      intro i hi
      have := hbound (i + 1) (by omega)
      rw [show k + (i + 1) = k + 1 + i from by omega] at this
      exact this
    have h3 : 0 < m → R (f k) (f (k + 1)) := by
      intro _
      have := hmono 0 (by omega)
      simpa using this
    refine ih (k + 1) (f k) h1 h2 ?_ h3
    have := hbound 0 (by omega)
    simpa using this

/-- The inline path's update sequence is non-decreasing throughout. -/
theorem inline_updates_monotone (g : Nat) (hg1 : 1 ≤ g) (hg3 : g ≤ 3) :
    List.Chain' (fun a b : VideoStatus × Nat => a.2 ≤ b.2)
      (jobUpdates (.inlineData g)) := by
  refine (@List.chain'_map Nat (VideoStatus × Nat) (fun x y => x ≤ y) Prod.snd _).mp ?_
  rw [show (jobUpdates (.inlineData g)).map Prod.snd
      = 5 :: 10 :: 15 :: 25 :: 40 :: 45 :: 45 :: 48 :: 50 :: 55 ::
        (((List.range' 0 g).map fun t => 55 + (t + 1) * 5)
          ++ 70 :: [70, 75, 75, 80, 90, 100, 100]) from by
    simp [jobUpdates, transcriptionPhaseUpdates, analysisPhaseUpdates, strategyProgress,
      List.range_eq_range', Function.comp]]
  refine List.Chain'.cons (by omega) (List.Chain'.cons (by omega) (List.Chain'.cons (by omega)
    (List.Chain'.cons (by omega) (List.Chain'.cons (by omega) (List.Chain'.cons (by omega)
    (List.Chain'.cons (by omega) (List.Chain'.cons (by omega) (List.Chain'.cons (by omega)
    ?_))))))))
  refine chain'_seg _ 70 _ ?_ g 0 55 ?_ ?_ ?_ ?_
  · simp [List.chain'_cons]
  · intro i _
    simp only [Nat.zero_add]
    omega
  · intro i hi
    simp only [Nat.zero_add]
    omega
  · omega
  · intro _
    simp only [Nat.zero_add]
    omega

/-- C2 (amended): over every successful run, progress only ever decreases at
an update writing exactly 70 — the transcription-completion checkpoint (after
chunked callbacks that end at 100) and the file-API success callback (after a
third-attempt callback at 71); the inline path is non-decreasing throughout,
and no update in these runs carries status `error`. -/
theorem progress_decreases_only_at_seventy :
    (∀ p, pathValid p →
        List.Chain' (fun a b : VideoStatus × Nat => a.2 ≤ b.2 ∨ b.2 = 70)
          (jobUpdates p)) ∧
    (∀ g, 1 ≤ g → g ≤ 3 →
        List.Chain' (fun a b : VideoStatus × Nat => a.2 ≤ b.2)
          (jobUpdates (.inlineData g))) ∧
    (∀ p, ∀ q ∈ jobUpdates p, q.1 ≠ VideoStatus.error) := by
  refine ⟨?_, fun g h1 h3 => inline_updates_monotone g h1 h3, ?_⟩
  · intro p hv
    cases p with
    | chunked n =>
      have hn0 : 0 < n := hv
      refine (@List.chain'_map Nat (VideoStatus × Nat)
        (fun x y => x ≤ y ∨ y = 70) Prod.snd _).mp ?_
      rw [show (jobUpdates (.chunked n)).map Prod.snd
          = 5 :: 10 :: 15 :: 25 :: 40 :: 45 :: 45 :: 48 :: 50 ::
            (((List.range' 0 n).map fun i => 50 + 40 * i / n)
              ++ 95 :: [100, 70, 75, 75, 80, 90, 100, 100]) from by
        simp [jobUpdates, transcriptionPhaseUpdates, analysisPhaseUpdates, strategyProgress,
          List.range_eq_range', Function.comp, Function.comp_def]]
      refine List.Chain'.cons (by omega) (List.Chain'.cons (by omega)
        (List.Chain'.cons (by omega) (List.Chain'.cons (by omega)
        (List.Chain'.cons (by omega) (List.Chain'.cons (by omega)
        (List.Chain'.cons (by omega) (List.Chain'.cons (by omega) ?_)))))))
      refine chain'_seg _ 95 _ ?_ n 0 50 ?_ ?_ ?_ ?_
      · simp [List.chain'_cons]
      · intro i _
        left
        have : 40 * i / n ≤ 40 * (i + 1) / n := Nat.div_le_div_right (by omega)
        simpa using Nat.add_le_add_left this 50
      · intro i hi
        left
        simp only [Nat.zero_add]
        have h40 : 40 * i / n ≤ 40 := by
          calc 40 * i / n ≤ 40 * n / n := Nat.div_le_div_right (by omega)
            _ = 40 := Nat.mul_div_cancel 40 hn0
        omega
      · left
        omega
      · intro _
        left
        simp [Nat.zero_div]
    | fileAPI u w g =>
      obtain ⟨hu1, hu3, hw60, hg1, hg3⟩ := hv
      refine (@List.chain'_map Nat (VideoStatus × Nat)
        (fun x y => x ≤ y ∨ y = 70) Prod.snd _).mp ?_
      rw [show (jobUpdates (.fileAPI u w g)).map Prod.snd
          = 5 :: 10 :: 15 :: 25 :: 40 :: 45 :: 45 :: 48 :: 50 ::
            (((List.range' 0 u).map fun t => 50 + (t + 1))
              ++ 55 :: (((List.range' 0 w).map fun j => 55 + min (j + 1) 10)
              ++ 65 :: (((List.range' 0 g).map fun t => 65 + (t + 1) * 2)
              ++ 70 :: [70, 75, 75, 80, 90, 100, 100]))) from by
        simp [jobUpdates, transcriptionPhaseUpdates, analysisPhaseUpdates, strategyProgress,
          List.range_eq_range', Function.comp, Function.comp_def]]
      have hgchain : List.Chain' (fun x y : Nat => x ≤ y ∨ y = 70)
          (65 :: (((List.range' 0 g).map fun t => 65 + (t + 1) * 2)
            ++ 70 :: [70, 75, 75, 80, 90, 100, 100])) := by
        refine chain'_seg _ 70 _ ?_ g 0 65 ?_ ?_ ?_ ?_
        · simp [List.chain'_cons]
        · intro i _
          left
          simp only [Nat.zero_add]
          omega
        · intro i _
          right
          rfl
        · left
          omega
        · intro _
          left
          simp only [Nat.zero_add]
          omega
      have hwchain : List.Chain' (fun x y : Nat => x ≤ y ∨ y = 70)
          (55 :: (((List.range' 0 w).map fun j => 55 + min (j + 1) 10)
            ++ 65 :: (((List.range' 0 g).map fun t => 65 + (t + 1) * 2)
            ++ 70 :: [70, 75, 75, 80, 90, 100, 100]))) := by
        refine chain'_seg _ 65 _ hgchain w 0 55 ?_ ?_ ?_ ?_
        · intro i _
          left
          simp only [Nat.zero_add]
          omega
        · intro i _
          left
          simp only [Nat.zero_add]
          omega
        · left
          omega
        · intro _
          left
          simp only [Nat.zero_add]
          omega
      refine List.Chain'.cons (by omega) (List.Chain'.cons (by omega)
        (List.Chain'.cons (by omega) (List.Chain'.cons (by omega)
        (List.Chain'.cons (by omega) (List.Chain'.cons (by omega)
        (List.Chain'.cons (by omega) (List.Chain'.cons (by omega) ?_)))))))
      refine chain'_seg _ 55 _ hwchain u 0 50 ?_ ?_ ?_ ?_
      · intro i _
        left
        simp only [Nat.zero_add]
        omega
      · intro i hi
        left
        simp only [Nat.zero_add]
        omega
      · left
        omega
      · intro _
        left
        simp only [Nat.zero_add]
        omega
    | inlineData g =>
      obtain ⟨hg1, hg3⟩ := hv
      exact (inline_updates_monotone g hg1 hg3).imp fun a b hab => Or.inl hab
  · intro p q hq
    have hst : q.1 = VideoStatus.downloading ∨ q.1 = VideoStatus.transcribing ∨
        q.1 = VideoStatus.analyzing ∨ q.1 = VideoStatus.completed := by
      cases p <;>
        (simp only [jobUpdates, transcriptionPhaseUpdates, analysisPhaseUpdates,
           strategyProgress, List.mem_append, List.mem_cons, List.mem_map] at hq
         aesop)
    rcases hst with h | h | h | h <;> simp [h]

/-- Witness for C2 (amended): the one-chunk chunked run. -/
theorem progress_decreases_only_at_seventy_witness :
    List.Chain' (fun a b : Pipeline.VideoStatus × Nat => a.2 ≤ b.2 ∨ b.2 = 70)
      (jobUpdates (.chunked 1)) :=
  (progress_decreases_only_at_seventy).1 (.chunked 1) (Nat.le_refl 1)

end Progress
